import Mathlib

/-!
Verification of the sales-aggregation engine of the TelegramBot repository
(`src/main.py`) against its natural-language specification.

The Python program is shallowly embedded here:
* Gregorian-calendar helpers model the behaviour of Python `datetime` for the
  operations the program uses (`replace`, subtraction of `timedelta(days=1)`,
  day ordinals).
* `calculate_window_days` and `get_window_range` are direct translations of the
  functions of the same names (main.py lines 64-106).  Python
  `datetime.utcnow()` is replaced by an explicit `today : Date` argument, and
  `raise ValueError` by an `Option` result.
* `parse_sheet_date` (main.py lines 143-193) is translated together with a
  model of CPython `datetime.strptime`: format strings are compiled to token
  lists and matched with ordered-alternative backtracking, mirroring the
  regexes of CPython `_strptime.TimeRE` (`%d` ~ `3[01]|[12]\d|0[1-9]|[1-9]`,
  `%Y` ~ `\d\d\d\d`, whitespace ~ `\s+`, literals and month names matched
  case-insensitively because the regex is compiled with `IGNORECASE`), followed
  by the bounds checks of the `datetime` constructor.
* `fetch_sales_from_sheets` (main.py lines 196-345) is translated with the
  external world made explicit: the presence of credentials, the Google client
  and authentication become booleans, and the per-sheet fetch outcomes become
  an `Except` value per configured sheet id.  Sale amounts are modelled as
  exact rationals (the program uses Python floats; the claims under scrutiny
  concern aggregation structure, and the concrete example amounts are exactly
  representable).  The `since`/`until` bounds computed at lines 221-231 are
  taken as parameters.
-/

/-! ## Calendar model (Python `datetime` dates) -/

/-- Gregorian leap-year test, as implemented by Python `datetime`. -/
def isLeap (y : Nat) : Bool :=
  (y % 4 == 0 && y % 100 != 0) || (y % 400 == 0)

/-- Number of days of month `m` (1-12) of year `y`. -/
def daysInMonth (y m : Nat) : Nat :=
  match m with
  | 1 => 31
  | 2 => if isLeap y then 29 else 28
  | 3 => 31
  | 4 => 30
  | 5 => 31
  | 6 => 30
  | 7 => 31
  | 8 => 31
  | 9 => 30
  | 10 => 31
  | 11 => 30
  | 12 => 31
  | _ => 0

/-- Number of days of year `y`. -/
def daysInYear (y : Nat) : Nat := if isLeap y then 366 else 365

/-- Days in all years before year `y`. -/
def daysBeforeYear : Nat → Nat
  | 0 => 0
  | y + 1 => daysBeforeYear y + daysInYear y

theorem daysBeforeYear_succ (y : Nat) :
    daysBeforeYear (y + 1) = daysBeforeYear y + daysInYear y := rfl

/-- Days in all months of year `y` strictly before month `m`. -/
def daysBeforeMonth (y : Nat) : Nat → Nat
  | 0 => 0
  | m + 1 => daysBeforeMonth y m + (if m = 0 then 0 else daysInMonth y m)

/-- A calendar date (the date part of a Python `datetime`). -/
structure Date where
  year : Nat
  month : Nat
  day : Nat
deriving DecidableEq

/-- Validity of a date, as enforced by the `datetime` constructor. -/
def Date.valid (d : Date) : Prop :=
  1 ≤ d.year ∧ 1 ≤ d.month ∧ d.month ≤ 12 ∧ 1 ≤ d.day ∧
    d.day ≤ daysInMonth d.year d.month

instance (d : Date) : Decidable d.valid := by
  unfold Date.valid; infer_instance

/-- Day ordinal of a date.  Two dates at midnight differ by
`toOrdinal a - toOrdinal b` days, which is what Python
`(a - b).days` computes for midnight-aligned datetimes. -/
def toOrdinal (d : Date) : Nat :=
  daysBeforeYear d.year + daysBeforeMonth d.year d.month + d.day

/-- The last day of the month preceding `d`'s month: the result of
`d.replace(day=1) - timedelta(days=1)` in Python. -/
def prevMonthLastDay (d : Date) : Date :=
  if d.month = 1 then ⟨d.year - 1, 12, 31⟩
  else ⟨d.year, d.month - 1, daysInMonth d.year (d.month - 1)⟩

/-- First day of the month following `d`'s month. -/
def nextMonthFirst (d : Date) : Date :=
  if d.month = 12 then ⟨d.year + 1, 1, 1⟩ else ⟨d.year, d.month + 1, 1⟩

/-- A Python `datetime` value (microsecond precision). -/
structure DateTime where
  year : Nat
  month : Nat
  day : Nat
  hour : Nat
  minute : Nat
  second : Nat
  microsecond : Nat
deriving DecidableEq

/-- Python `datetime` comparison: lexicographic on the components. -/
def dtLe (a b : DateTime) : Bool :=
  if a.year ≠ b.year then decide (a.year < b.year)
  else if a.month ≠ b.month then decide (a.month < b.month)
  else if a.day ≠ b.day then decide (a.day < b.day)
  else if a.hour ≠ b.hour then decide (a.hour < b.hour)
  else if a.minute ≠ b.minute then decide (a.minute < b.minute)
  else if a.second ≠ b.second then decide (a.second < b.second)
  else decide (a.microsecond ≤ b.microsecond)

/-! ## Window calculator (main.py lines 64-106) -/

/-- Translation of `calculate_window_days` (main.py lines 64-81).
`today` stands for `datetime.utcnow()`.  In each branch Python computes
`(today - start).days + 1` where `start` is a midnight on or before `today`
in the same or previous month, so the `.days` of the `timedelta` equals the
difference of day ordinals regardless of `today`'s time of day. -/
def calculate_window_days (today : Date) : Int :=
  let day := today.day
  if 8 ≤ day ∧ day ≤ 17 then
    ((toOrdinal today : Int) - toOrdinal ⟨today.year, today.month, 8⟩) + 1
  else if 18 ≤ day ∧ day ≤ 27 then
    ((toOrdinal today : Int) - toOrdinal ⟨today.year, today.month, 18⟩) + 1
  else if 28 ≤ day then
    ((toOrdinal today : Int) - toOrdinal ⟨today.year, today.month, 28⟩) + 1
  else
    let pm := prevMonthLastDay today
    ((toOrdinal today : Int) - toOrdinal ⟨pm.year, pm.month, 28⟩) + 1

/-- The day-28 anchor from which `calculate_window_days` measures in its
`day >= 28` and `day <= 7` branches. -/
def window28Anchor (d : Date) : Date :=
  if 28 ≤ d.day then ⟨d.year, d.month, 28⟩
  else ⟨(prevMonthLastDay d).year, (prevMonthLastDay d).month, 28⟩

/-- Translation of `get_window_range` (main.py lines 88-106).  `today` stands
for `datetime.utcnow()`; the `raise ValueError` branch becomes `none`.
`this_month_start - timedelta(days=1)` is the last day of the previous month,
modelled by `prevMonthLastDay`. -/
def get_window_range (today : Date) (window : String) :
    Option (DateTime × DateTime) :=
  if window = "first" then
    let prev_month_last := prevMonthLastDay ⟨today.year, today.month, 1⟩
    some (⟨prev_month_last.year, prev_month_last.month, 28, 0, 0, 0, 0⟩,
          ⟨today.year, today.month, 7, 23, 59, 59, 999999⟩)
  else if window = "second" then
    some (⟨today.year, today.month, 8, 0, 0, 0, 0⟩,
          ⟨today.year, today.month, 17, 23, 59, 59, 999999⟩)
  else if window = "third" then
    some (⟨today.year, today.month, 18, 0, 0, 0, 0⟩,
          ⟨today.year, today.month, 27, 23, 59, 59, 999999⟩)
  else
    none

/-! ### Calendar lemmas -/

theorem daysInMonth_bounds (y m : Nat) (h1 : 1 ≤ m) (h2 : m ≤ 12) :
    28 ≤ daysInMonth y m ∧ daysInMonth y m ≤ 31 := by
  interval_cases m <;> simp [daysInMonth] <;> split <;> omega

theorem daysBeforeMonth_succ (y m : Nat) (h : 1 ≤ m) :
    daysBeforeMonth y (m + 1) = daysBeforeMonth y m + daysInMonth y m := by
  have : ¬ m = 0 := by omega
  simp [daysBeforeMonth, this]

theorem daysBeforeMonth_twelve (y : Nat) :
    daysBeforeMonth y 12 + daysInMonth y 12 = daysInYear y := by
  cases h : isLeap y <;>
    simp [daysBeforeMonth, daysInMonth, daysInYear, h]

/-- Crossing a month boundary: the ordinal of a date equals the ordinal of
day 28 of the previous month plus the remaining days of that month plus the
day of month. -/
theorem toOrdinal_prev28 (d : Date) (hy : 1 ≤ d.year) (hm1 : 1 ≤ d.month)
    (hm2 : d.month ≤ 12) :
    toOrdinal d = toOrdinal ⟨(prevMonthLastDay d).year,
        (prevMonthLastDay d).month, 28⟩ +
      (daysInMonth (prevMonthLastDay d).year (prevMonthLastDay d).month - 28) +
      d.day := by
  by_cases h : d.month = 1
  · have hpml : prevMonthLastDay d = ⟨d.year - 1, 12, 31⟩ := by
      simp [prevMonthLastDay, h]
    rw [hpml]
    show toOrdinal d =
      toOrdinal ⟨d.year - 1, 12, 28⟩ + (daysInMonth (d.year - 1) 12 - 28) + d.day
    have hy' : d.year - 1 + 1 = d.year := by omega
    have hby := daysBeforeYear_succ (d.year - 1)
    rw [hy'] at hby
    have h12 := daysBeforeMonth_twelve (d.year - 1)
    have hdec : daysInMonth (d.year - 1) 12 = 31 := rfl
    rw [hdec] at h12
    have hdbm1 : daysBeforeMonth d.year 1 = 0 := rfl
    simp only [toOrdinal, hdec]
    rw [h]
    omega
  · have hpml : prevMonthLastDay d =
        ⟨d.year, d.month - 1, daysInMonth d.year (d.month - 1)⟩ := by
      simp [prevMonthLastDay, h]
    rw [hpml]
    show toOrdinal d = toOrdinal ⟨d.year, d.month - 1, 28⟩ +
      (daysInMonth d.year (d.month - 1) - 28) + d.day
    have hm1' : 1 ≤ d.month - 1 := by omega
    have hsucc := daysBeforeMonth_succ d.year (d.month - 1) hm1'
    have hmeq : d.month - 1 + 1 = d.month := by omega
    rw [hmeq] at hsucc
    have hb := daysInMonth_bounds d.year (d.month - 1) hm1' (by omega)
    simp only [toOrdinal]
    omega

/-- Within one month the ordinal difference is the difference of the days. -/
theorem toOrdinal_sub_same_month (d : Date) (b : Nat) :
    (toOrdinal d : Int) - toOrdinal ⟨d.year, d.month, b⟩ = (d.day : Int) - b := by
  simp only [toOrdinal]
  push_cast
  ring

theorem cwd_day8 (d : Date) (h : 8 ≤ d.day ∧ d.day ≤ 17) :
    calculate_window_days d = (d.day : Int) - 8 + 1 := by
  have hr := toOrdinal_sub_same_month d 8
  simp only [calculate_window_days, if_pos h]
  omega

theorem cwd_day18 (d : Date) (h : 18 ≤ d.day ∧ d.day ≤ 27) :
    calculate_window_days d = (d.day : Int) - 18 + 1 := by
  have hn1 : ¬ (8 ≤ d.day ∧ d.day ≤ 17) := by omega
  have hr := toOrdinal_sub_same_month d 18
  simp only [calculate_window_days, if_neg hn1, if_pos h]
  omega

theorem cwd_day28 (d : Date) (h : 28 ≤ d.day) :
    calculate_window_days d = (d.day : Int) - 28 + 1 := by
  have hn1 : ¬ (8 ≤ d.day ∧ d.day ≤ 17) := by omega
  have hn2 : ¬ (18 ≤ d.day ∧ d.day ≤ 27) := by omega
  have hr := toOrdinal_sub_same_month d 28
  simp only [calculate_window_days, if_neg hn1, if_neg hn2, if_pos h]
  omega

theorem cwd_day7 (d : Date) (h : d.day ≤ 7) :
    calculate_window_days d =
      ((toOrdinal d : Int) - toOrdinal ⟨(prevMonthLastDay d).year,
        (prevMonthLastDay d).month, 28⟩) + 1 := by
  have hn1 : ¬ (8 ≤ d.day ∧ d.day ≤ 17) := by omega
  have hn2 : ¬ (18 ≤ d.day ∧ d.day ≤ 27) := by omega
  have hn3 : ¬ (28 ≤ d.day) := by omega
  simp only [calculate_window_days, if_neg hn1, if_neg hn2, if_neg hn3]

theorem prevMonthLastDay_month_bounds (d : Date) (hm1 : 1 ≤ d.month)
    (hm2 : d.month ≤ 12) :
    1 ≤ (prevMonthLastDay d).month ∧ (prevMonthLastDay d).month ≤ 12 := by
  by_cases h : d.month = 1 <;> simp [prevMonthLastDay, h] <;> omega

/-- Claim C2: `calculate_window_days` classifies the day of month into the
window anchored on day 8, 18 or 28 and returns the days elapsed since the
window start inclusive: days 8-17 give `day - 8 + 1` (between 1 and 10), days
18-27 give `day - 18 + 1` (between 1 and 10), and days 28-end-of-month
together with days 1-7 give the elapsed-day count measured from the prior
day 28 at midnight; stepping from the last day of a month to day 1 of the
next month increases the count by exactly one, so the cross-boundary window
is contiguous with no gap or overlap. -/
theorem calculate_window_days_spec (d : Date) (hv : d.valid) :
    (8 ≤ d.day ∧ d.day ≤ 17 →
      calculate_window_days d = (d.day : Int) - 8 + 1 ∧
      1 ≤ calculate_window_days d ∧ calculate_window_days d ≤ 10) ∧
    (18 ≤ d.day ∧ d.day ≤ 27 →
      calculate_window_days d = (d.day : Int) - 18 + 1 ∧
      1 ≤ calculate_window_days d ∧ calculate_window_days d ≤ 10) ∧
    (28 ≤ d.day ∨ d.day ≤ 7 →
      calculate_window_days d =
        ((toOrdinal d : Int) - toOrdinal (window28Anchor d)) + 1 ∧
      1 ≤ calculate_window_days d) ∧
    (d.day = daysInMonth d.year d.month →
      calculate_window_days (nextMonthFirst d) = calculate_window_days d + 1) := by
  obtain ⟨hy, hm1, hm2, hd1, hd2⟩ := hv
  have hmb := daysInMonth_bounds d.year d.month hm1 hm2
  refine ⟨?_, ?_, ?_, ?_⟩
  · intro h
    have heq := cwd_day8 d h
    exact ⟨heq, by omega, by omega⟩
  · intro h
    have heq := cwd_day18 d h
    exact ⟨heq, by omega, by omega⟩
  · intro h
    rcases h with h28 | h7
    · have heq := cwd_day28 d h28
      have ha : window28Anchor d = ⟨d.year, d.month, 28⟩ := by
        simp [window28Anchor, h28]
      have hr := toOrdinal_sub_same_month d 28
      rw [ha, heq]
      constructor
      · omega
      · omega
    · have hn3 : ¬ (28 ≤ d.day) := by omega
      have heq := cwd_day7 d h7
      have ha : window28Anchor d = ⟨(prevMonthLastDay d).year,
          (prevMonthLastDay d).month, 28⟩ := by
        simp [window28Anchor, hn3]
      have hcross := toOrdinal_prev28 d hy hm1 hm2
      have hpm := prevMonthLastDay_month_bounds d hm1 hm2
      have hpb := daysInMonth_bounds (prevMonthLastDay d).year
        (prevMonthLastDay d).month hpm.1 hpm.2
      rw [ha, heq]
      constructor
      · rfl
      · omega
  · intro hlast
    have h28 : 28 ≤ d.day := by omega
    have heqd := cwd_day28 d h28
    set d' := nextMonthFirst d with hd'
    have hd'day : d'.day = 1 := by
      by_cases hm12 : d.month = 12 <;> simp [hd', nextMonthFirst, hm12]
    have hd'pml : prevMonthLastDay d' =
        ⟨d.year, d.month, daysInMonth d.year d.month⟩ := by
      by_cases hm12 : d.month = 12
      · simp only [hd', nextMonthFirst, hm12, if_pos rfl]
        simp [prevMonthLastDay, hm12, daysInMonth]
      · simp only [hd', nextMonthFirst, if_neg hm12]
        have hne : ¬ (d.month + 1 = 1) := by omega
        simp [prevMonthLastDay, hne]
    have hvalid' : 1 ≤ d'.year ∧ 1 ≤ d'.month ∧ d'.month ≤ 12 := by
      by_cases hm12 : d.month = 12 <;>
        simp [hd', nextMonthFirst, hm12] <;> omega
    have hcross0 := toOrdinal_prev28 d' hvalid'.1 hvalid'.2.1 hvalid'.2.2
    rw [hd'pml] at hcross0
    have hcross : toOrdinal d' = toOrdinal ⟨d.year, d.month, 28⟩ +
        (daysInMonth d.year d.month - 28) + d'.day := hcross0
    have heqd0 := cwd_day7 d' (by omega)
    rw [hd'pml] at heqd0
    have heqd'2 : calculate_window_days d' =
        ((toOrdinal d' : Int) - toOrdinal ⟨d.year, d.month, 28⟩) + 1 := heqd0
    have hr := toOrdinal_sub_same_month d 28
    rw [heqd'2, heqd]
    omega

/-- Witness for C2 at September 10, 2025 (day 10 is in the 8-17 window). -/
theorem calculate_window_days_spec_witness :
    calculate_window_days ⟨2025, 9, 10⟩ =
        ((Date.mk 2025 9 10).day : Int) - 8 + 1 ∧
      1 ≤ calculate_window_days ⟨2025, 9, 10⟩ ∧
      calculate_window_days ⟨2025, 9, 10⟩ ≤ 10 :=
  (calculate_window_days_spec ⟨2025, 9, 10⟩ (by decide)).1 (by decide)

/-- Claim C10: for every valid current date, `calculate_window_days` is
between 1 and 11, and the value 11 occurs only on day 7 of a month whose
preceding month has 31 days. -/
theorem calculate_window_days_bounds (d : Date) (hv : d.valid) :
    1 ≤ calculate_window_days d ∧ calculate_window_days d ≤ 11 ∧
      (calculate_window_days d = 11 →
        d.day = 7 ∧
        daysInMonth (prevMonthLastDay d).year (prevMonthLastDay d).month = 31) := by
  obtain ⟨hy, hm1, hm2, hd1, hd2⟩ := hv
  have hmb := daysInMonth_bounds d.year d.month hm1 hm2
  by_cases h1 : 8 ≤ d.day ∧ d.day ≤ 17
  · have heq := cwd_day8 d h1
    refine ⟨by omega, by omega, by omega⟩
  · by_cases h2 : 18 ≤ d.day ∧ d.day ≤ 27
    · have heq := cwd_day18 d h2
      refine ⟨by omega, by omega, by omega⟩
    · by_cases h3 : 28 ≤ d.day
      · have heq := cwd_day28 d h3
        refine ⟨by omega, by omega, by omega⟩
      · have h7 : d.day ≤ 7 := by omega
        have heq := cwd_day7 d h7
        have hcross := toOrdinal_prev28 d hy hm1 hm2
        have hpm := prevMonthLastDay_month_bounds d hm1 hm2
        have hpb := daysInMonth_bounds (prevMonthLastDay d).year
          (prevMonthLastDay d).month hpm.1 hpm.2
        refine ⟨by omega, by omega, ?_⟩
        intro h11
        constructor <;> omega

/-- Witness for C10 at March 3, 2025 (previous month February 2025, 28 days). -/
theorem calculate_window_days_bounds_witness :
    1 ≤ calculate_window_days ⟨2025, 3, 3⟩ ∧
      calculate_window_days ⟨2025, 3, 3⟩ ≤ 11 ∧
      (calculate_window_days ⟨2025, 3, 3⟩ = 11 →
        (Date.mk 2025 3 3).day = 7 ∧
        daysInMonth (prevMonthLastDay ⟨2025, 3, 3⟩).year
          (prevMonthLastDay ⟨2025, 3, 3⟩).month = 31) :=
  calculate_window_days_bounds ⟨2025, 3, 3⟩ (by decide)

/-- Claim C5: for every current date, `get_window_range "second"` returns
day 8 at 00:00:00 through day 17 at 23:59:59.999999 of the current month, and
`get_window_range "first"` returns day 28 at midnight of the previous month
(December of the previous year when the current month is January, regardless
of the previous month's length) through day 7 at 23:59:59.999999 of the
current month. -/
theorem get_window_range_spec (today : Date) :
    get_window_range today "second" =
      some (⟨today.year, today.month, 8, 0, 0, 0, 0⟩,
            ⟨today.year, today.month, 17, 23, 59, 59, 999999⟩) ∧
    get_window_range today "first" =
      some (⟨(if today.month = 1 then today.year - 1 else today.year),
             (if today.month = 1 then 12 else today.month - 1), 28, 0, 0, 0, 0⟩,
            ⟨today.year, today.month, 7, 23, 59, 59, 999999⟩) := by
  constructor
  · rfl
  · by_cases h : today.month = 1 <;>
      simp [get_window_range, prevMonthLastDay, h]

/-- Claim C9: `get_window_range` fails (raises, modelled as `none`) for every
window name other than the literals `"first"`, `"second"`, `"third"`, and
returns bounds for those three. -/
theorem get_window_range_unknown (today : Date) (w : String) :
    (w ≠ "first" → w ≠ "second" → w ≠ "third" →
      get_window_range today w = none) ∧
    (get_window_range today "first").isSome = true ∧
    (get_window_range today "second").isSome = true ∧
    (get_window_range today "third").isSome = true := by
  refine ⟨fun h1 h2 h3 => ?_, rfl, rfl, rfl⟩
  simp [get_window_range, h1, h2, h3]

/-- Witness for C9 at the window name "fourth". -/
theorem get_window_range_unknown_witness :
    get_window_range ⟨2025, 6, 15⟩ "fourth" = none :=
  (get_window_range_unknown ⟨2025, 6, 15⟩ "fourth").1
    (by decide) (by decide) (by decide)

/-! ## CPython `strptime` model

`datetime.strptime` compiles the format string to a regex
(`_strptime.TimeRE`) and matches it against the whole input, then builds a
`datetime` from the captured groups.  The regex fragments used by the formats
appearing in main.py are
`%d ~ (3[01]|[12]\d|0[1-9]|[1-9])`, `%m ~ (1[0-2]|0[1-9]|[1-9])`,
`%H ~ (2[0-3]|[0-1]\d|\d)`, `%I ~ (1[0-2]|0[1-9]|[1-9])`, `%M ~ ([0-5]\d|\d)`,
`%S ~ (6[0-1]|[0-5]\d|\d)`, `%Y ~ (\d\d\d\d)`, `%p ~ (AM|PM)`, `%B`/`%b` the
month names sorted by decreasing length, literal whitespace ~ `\s+`, and the
whole regex is compiled with `IGNORECASE`.  Ordered alternatives with
backtracking are modelled by `matchToks` below. -/

/-- ASCII lower-casing on code points (the effect of `IGNORECASE` for the
ASCII text appearing in the formats). -/
def lowerCode (n : Nat) : Nat := if 65 ≤ n ∧ n ≤ 90 then n + 32 else n

/-- Python `\s` / `str.strip` whitespace (ASCII part). -/
def isSpaceB (c : Char) : Bool := decide (c.toNat = 32 ∨ (9 ≤ c.toNat ∧ c.toNat ≤ 13))

/-- ASCII digit test. -/
def isDigitB (c : Char) : Bool := decide (48 ≤ c.toNat ∧ c.toNat ≤ 57)

/-- A character class of the regex: a case-insensitive literal or a
code-point range. -/
inductive CC where
  | ci : Char → CC
  | range : Nat → Nat → CC
deriving DecidableEq

def CC.test : CC → Char → Bool
  | CC.ci t, c => decide (lowerCode c.toNat = lowerCode t.toNat)
  | CC.range lo hi, c => decide (lo ≤ c.toNat ∧ c.toNat ≤ hi)

/-- How a directive's captured text is turned into a number: either the
numeric value of the matched digits, or a constant attached to the
alternative (month names, AM/PM). -/
inductive ArmVal where
  | num : ArmVal
  | const : Nat → ArmVal
deriving DecidableEq

/-- One alternative of a directive's regex group. -/
structure Arm where
  pats : List CC
  val : ArmVal
deriving DecidableEq

/-- The strptime directives used by main.py's formats. -/
inductive Dir where
  | Y | m | d | H | I | M | S | p | B | b
deriving DecidableEq

/-- Numeric value of a digit string. -/
def digitsVal (pre : List Char) : Nat :=
  pre.foldl (fun acc c => 10 * acc + (c.toNat - 48)) 0

def armValue : ArmVal → List Char → Nat
  | ArmVal.num, pre => digitsVal pre
  | ArmVal.const k, _ => k

def digitCC : CC := CC.range 48 57

def ciArm (s : String) (k : Nat) : Arm := ⟨s.data.map CC.ci, ArmVal.const k⟩

/-- Ordered alternatives of each directive's regex group, as compiled by
CPython `_strptime.TimeRE` (month and AM/PM names sorted by decreasing
length, preserving locale order among equal lengths). -/
def armsOf : Dir → List Arm
  | Dir.Y => [⟨[digitCC, digitCC, digitCC, digitCC], ArmVal.num⟩]
  | Dir.m => [⟨[CC.range 49 49, CC.range 48 50], ArmVal.num⟩,
              ⟨[CC.range 48 48, CC.range 49 57], ArmVal.num⟩,
              ⟨[CC.range 49 57], ArmVal.num⟩]
  | Dir.d => [⟨[CC.range 51 51, CC.range 48 49], ArmVal.num⟩,
              ⟨[CC.range 49 50, digitCC], ArmVal.num⟩,
              ⟨[CC.range 48 48, CC.range 49 57], ArmVal.num⟩,
              ⟨[CC.range 49 57], ArmVal.num⟩]
  | Dir.H => [⟨[CC.range 50 50, CC.range 48 51], ArmVal.num⟩,
              ⟨[CC.range 48 49, digitCC], ArmVal.num⟩,
              ⟨[digitCC], ArmVal.num⟩]
  | Dir.I => [⟨[CC.range 49 49, CC.range 48 50], ArmVal.num⟩,
              ⟨[CC.range 48 48, CC.range 49 57], ArmVal.num⟩,
              ⟨[CC.range 49 57], ArmVal.num⟩]
  | Dir.M => [⟨[CC.range 48 53, digitCC], ArmVal.num⟩,
              ⟨[digitCC], ArmVal.num⟩]
  | Dir.S => [⟨[CC.range 54 54, CC.range 48 49], ArmVal.num⟩,
              ⟨[CC.range 48 53, digitCC], ArmVal.num⟩,
              ⟨[digitCC], ArmVal.num⟩]
  | Dir.p => [ciArm "AM" 0, ciArm "PM" 1]
  | Dir.B => [ciArm "September" 9, ciArm "February" 2, ciArm "November" 11,
              ciArm "December" 12, ciArm "January" 1, ciArm "October" 10,
              ciArm "August" 8, ciArm "March" 3, ciArm "April" 4,
              ciArm "June" 6, ciArm "July" 7, ciArm "May" 5]
  | Dir.b => [ciArm "Jan" 1, ciArm "Feb" 2, ciArm "Mar" 3, ciArm "Apr" 4,
              ciArm "May" 5, ciArm "Jun" 6, ciArm "Jul" 7, ciArm "Aug" 8,
              ciArm "Sep" 9, ciArm "Oct" 10, ciArm "Nov" 11, ciArm "Dec" 12]

/-- A token of the compiled format: a literal character (matched
case-insensitively), a whitespace run (`\s+`), or a directive group. -/
inductive Tok where
  | lit : Char → Tok
  | ws : Tok
  | dir : Dir → Tok
deriving DecidableEq

def dirOf : Char → Option Dir
  | 'Y' => some Dir.Y
  | 'm' => some Dir.m
  | 'd' => some Dir.d
  | 'H' => some Dir.H
  | 'I' => some Dir.I
  | 'M' => some Dir.M
  | 'S' => some Dir.S
  | 'p' => some Dir.p
  | 'B' => some Dir.B
  | 'b' => some Dir.b
  | _ => none

/-- Compilation of a strptime format string to tokens. -/
def compileFormat : List Char → List Tok
  | [] => []
  | '%' :: c :: rest =>
    (match dirOf c with
     | some D => [Tok.dir D]
     | none => [Tok.lit '%', Tok.lit c]) ++ compileFormat rest
  | c :: rest => (if isSpaceB c then Tok.ws else Tok.lit c) :: compileFormat rest

/-- Match one alternative: a fixed sequence of character classes. -/
def matchArm : List CC → List Char → Option (List Char × List Char)
  | [], s => some ([], s)
  | _ :: _, [] => none
  | p :: ps, c :: cs =>
    if CC.test p c then
      match matchArm ps cs with
      | none => none
      | some (pre, suf) => some (c :: pre, suf)
    else none

/-- Match a token list against the whole input (the regex is anchored on both
sides), with ordered-alternative backtracking: an alternative of a directive
is abandoned if the rest of the format cannot match after it, and the next
alternative is tried.  On success the captured `(directive, value)` pairs are
returned. -/
def matchToks : List Tok → List Char → Option (List (Dir × Nat))
  | [], [] => some []
  | [], _ :: _ => none
  | Tok.lit c :: ts, s =>
    match s with
    | [] => none
    | x :: xs =>
      if lowerCode x.toNat = lowerCode c.toNat then matchToks ts xs else none
  | Tok.ws :: ts, s =>
    if (s.takeWhile isSpaceB).isEmpty then none
    else matchToks ts (s.dropWhile isSpaceB)
  | Tok.dir D :: ts, s =>
    (armsOf D).findSome? fun a =>
      match matchArm a.pats s with
      | none => none
      | some (pre, suf) =>
        match matchToks ts suf with
        | none => none
        | some env => some ((D, armValue a.val pre) :: env)

def envLookup (D : Dir) : List (Dir × Nat) → Option Nat
  | [] => none
  | (k, v) :: rest => if k = D then some v else envLookup D rest

/-- Build the `datetime` from the captured groups, with the bounds checks of
the `datetime` constructor (`MINYEAR = 1`, `MAXYEAR = 9999`, day checked
against the month length); `%I` is converted using `%p` as in `_strptime`
(12 AM is hour 0, 12 PM is hour 12). -/
def buildDateTime (env : List (Dir × Nat)) : Option DateTime :=
  let year := (envLookup Dir.Y env).getD 1900
  let month :=
    match envLookup Dir.m env with
    | some v => v
    | none =>
      match envLookup Dir.B env with
      | some v => v
      | none => (envLookup Dir.b env).getD 1
  let day := (envLookup Dir.d env).getD 1
  let hour :=
    match envLookup Dir.H env with
    | some v => v
    | none =>
      match envLookup Dir.I env with
      | some i =>
        if envLookup Dir.p env = some 1 then (if i = 12 then 12 else i + 12)
        else (if i = 12 then 0 else i)
      | none => 0
  let minute := (envLookup Dir.M env).getD 0
  let second := (envLookup Dir.S env).getD 0
  if 1 ≤ year ∧ year ≤ 9999 ∧ 1 ≤ month ∧ month ≤ 12 ∧ 1 ≤ day ∧
      day ≤ daysInMonth year month ∧ hour ≤ 23 ∧ minute ≤ 59 ∧ second ≤ 59 then
    some ⟨year, month, day, hour, minute, second, 0⟩
  else none

/-- Model of `datetime.strptime(s, fmt)`: `none` stands for `ValueError`. -/
def strptime (fmt : String) (s : List Char) : Option DateTime :=
  match matchToks (compileFormat fmt.data) s with
  | none => none
  | some env => buildDateTime env

/-! ## The fallback date parser (main.py lines 143-193) -/

/-- Python `str.strip()` (ASCII whitespace). -/
def pyStrip (s : List Char) : List Char :=
  ((s.dropWhile isSpaceB).reverse.dropWhile isSpaceB).reverse

/-- Substring containment, as Python `pat in s`. -/
def containsSub (pat : List Char) : List Char → Bool
  | [] => pat.isEmpty
  | c :: rest => pat.isPrefixOf (c :: rest) || containsSub pat rest

/-- The prefix of `s` before the first occurrence of `pat`
(`s.split(pat)[0]`). -/
def takeBefore (pat : List Char) : List Char → List Char
  | [] => []
  | c :: rest => if pat.isPrefixOf (c :: rest) then [] else c :: takeBefore pat rest

/-- Does the two-character sequence form an ordinal suffix `st`/`nd`/`rd`/`th`? -/
def isOrdPair (c c2 : Char) : Bool :=
  (c = 's' && c2 = 't') || (c = 'n' && c2 = 'd') ||
  (c = 'r' && c2 = 'd') || (c = 't' && c2 = 'h')

/-- The substitution `re.sub(r'(\d+)(st|nd|rd|th)', r'\1', s)`, as a
left-to-right scan.  The flag records whether the previous character was a
digit: a suffix `st`/`nd`/`rd`/`th` is removed exactly when it immediately
follows a digit run (the suffix alternatives start with letters, so the
greedy `\d+` never gives digits back, and scanning resumes after the
replaced match). -/
def stripOrdAux : Bool → List Char → List Char
  | _, [] => []
  | _, [c] => [c]
  | prevDigit, c :: c2 :: rest =>
    if isDigitB c then c :: stripOrdAux true (c2 :: rest)
    else if prevDigit && isOrdPair c c2 then stripOrdAux false rest
    else c :: stripOrdAux false (c2 :: rest)

def stripOrdinals (s : List Char) : List Char := stripOrdAux false s

def gmtPat : List Char := [' ', 'G', 'M', 'T']

/-- The normalization steps of `parse_sheet_date` (main.py lines 145-154):
strip, truncate from a literal `" GMT"` onward (re-stripping), then remove
ordinal suffixes from numbers. -/
def normalize_sheet_date (raw : List Char) : List Char :=
  let cleaned := pyStrip raw
  let cleaned2 :=
    if containsSub gmtPat cleaned then pyStrip (takeBefore gmtPat cleaned)
    else cleaned
  stripOrdinals cleaned2

/-- The ordered format cascade of `parse_sheet_date` (main.py lines 156-167),
verbatim from the source. -/
def candidate_formats : List String :=
  ["%B %d, %Y at %I:%M %p",
   "%b %d, %Y at %I:%M %p",
   "%b %d, %Y, %I:%M:%S %p",
   "%B %d, %Y, %I:%M:%S %p",
   "%Y-%m-%d",
   "%Y/%m/%d",
   "%m/%d/%Y",
   "%d/%m/%Y",
   "%Y-%m-%d %H:%M",
   "%Y/%m/%d %H:%M"]

/-- First successful parse among the candidate formats (the `for fmt in
candidates` loop). -/
def tryCandidates : List String → List Char → Option DateTime
  | [], _ => none
  | fmt :: rest, s =>
    match strptime fmt s with
    | some dt => some dt
    | none => tryCandidates rest s

/-- Translation of `parse_sheet_date` (main.py lines 143-193) on the
character list of the input. -/
def parseSheetDateChars (raw : List Char) : Option DateTime :=
  let cleaned := normalize_sheet_date raw
  match tryCandidates candidate_formats cleaned with
  | some dt => some dt
  | none =>
    if 10 ≤ cleaned.length then
      let pre := cleaned.take 10
      match (if pre.count '-' = 2 then strptime "%Y-%m-%d" pre else none) with
      | some dt => some dt
      | none =>
        if pre.count '/' = 2 then
          match strptime "%m/%d/%Y" pre with
          | some dt => some dt
          | none => strptime "%d/%m/%Y" pre
        else none
    else none

/-- Translation of `parse_sheet_date` (main.py lines 143-193). -/
def parse_sheet_date (raw : String) : Option DateTime :=
  parseSheetDateChars raw.data

/-- Claim C3: `parse_sheet_date` applied to
`"August 6th, 2025 at 5:52 PM GMT+8"` first normalizes it by truncating from
the `" GMT"` substring onward and stripping the ordinal suffix, yielding
`"August 6, 2025 at 5:52 PM"`, and then parses it to
August 6, 2025 at 17:52. -/
theorem parse_sheet_date_ordinal_example :
    normalize_sheet_date "August 6th, 2025 at 5:52 PM GMT+8".data =
      "August 6, 2025 at 5:52 PM".data ∧
    parse_sheet_date "August 6th, 2025 at 5:52 PM GMT+8" =
      some ⟨2025, 8, 6, 17, 52, 0, 0⟩ := by
  constructor
  · decide
  · decide

/-! ### Inversion lemmas for the matcher -/

theorem matchArm_eq_some (ps : List CC) (s pre suf : List Char)
    (h : matchArm ps s = some (pre, suf)) :
    s = pre ++ suf ∧ List.Forall₂ (fun cc c => CC.test cc c = true) ps pre := by
  induction ps generalizing s pre suf with
  | nil =>
    simp only [matchArm, Option.some.injEq, Prod.mk.injEq] at h
    obtain ⟨h1, h2⟩ := h
    subst h1; subst h2
    exact ⟨rfl, List.Forall₂.nil⟩
  | cons p ps ih =>
    cases s with
    | nil => simp [matchArm] at h
    | cons c cs =>
      simp only [matchArm] at h
      split at h
      · cases hm : matchArm ps cs with
        | none => rw [hm] at h; simp at h
        | some pr =>
          obtain ⟨pre', suf'⟩ := pr
          rw [hm] at h
          simp only [Option.some.injEq, Prod.mk.injEq] at h
          obtain ⟨h1, h2⟩ := h
          obtain ⟨hs, hf⟩ := ih cs pre' suf' hm
          subst hs
          rw [← h1, ← h2]
          exact ⟨rfl, List.Forall₂.cons (by assumption) hf⟩
      · simp at h

theorem matchToks_nil_eq_some (s : List Char) (env : List (Dir × Nat))
    (h : matchToks [] s = some env) : s = [] ∧ env = [] := by
  cases s with
  | nil => simpa [matchToks] using h.symm
  | cons c cs => simp [matchToks] at h

theorem matchToks_lit_eq_some (c : Char) (ts : List Tok) (s : List Char)
    (env : List (Dir × Nat)) (h : matchToks (Tok.lit c :: ts) s = some env) :
    ∃ x xs, s = x :: xs ∧ lowerCode x.toNat = lowerCode c.toNat ∧
      matchToks ts xs = some env := by
  cases s with
  | nil => simp [matchToks] at h
  | cons x xs =>
    simp only [matchToks] at h
    split at h
    · exact ⟨x, xs, rfl, by assumption, h⟩
    · simp at h

theorem matchToks_dir_eq_some (D : Dir) (ts : List Tok) (s : List Char)
    (env : List (Dir × Nat)) (h : matchToks (Tok.dir D :: ts) s = some env) :
    ∃ a ∈ armsOf D, ∃ pre suf env',
      matchArm a.pats s = some (pre, suf) ∧ matchToks ts suf = some env' := by
  simp only [matchToks] at h
  obtain ⟨a, ha, hfa⟩ := List.exists_of_findSome?_eq_some h
  refine ⟨a, ha, ?_⟩
  cases hm : matchArm a.pats s with
  | none => rw [hm] at hfa; simp at hfa
  | some pr =>
    obtain ⟨pre, suf⟩ := pr
    rw [hm] at hfa
    simp only at hfa
    cases hmt : matchToks ts suf with
    | none => rw [hmt] at hfa; simp at hfa
    | some env' => exact ⟨pre, suf, env', rfl, hmt⟩

theorem matchToks_dir_none (D : Dir) (ts : List Tok) (s : List Char)
    (h : ∀ a ∈ armsOf D, matchArm a.pats s = none) :
    matchToks (Tok.dir D :: ts) s = none := by
  have hgen : ∀ (arms : List Arm), (∀ a ∈ arms, matchArm a.pats s = none) →
      (arms.findSome? fun a =>
        match matchArm a.pats s with
        | none => none
        | some (pre, suf) =>
          match matchToks ts suf with
          | none => none
          | some env => some ((D, armValue a.val pre) :: env)) = none := by
    intro arms
    induction arms with
    | nil => intro _; rfl
    | cons a rest ih =>
      intro hall
      have h0 := hall a (by simp)
      simp only [List.findSome?_cons, h0]
      exact ih (fun x hx => hall x (by simp [hx]))
  simp only [matchToks]
  exact hgen (armsOf D) h

/-! ### Failure of the earlier candidates on slash-digit inputs -/

theorem lowerCode_eq_47 (n : Nat) (h : lowerCode n = 47) : n = 47 := by
  unfold lowerCode at h
  split at h <;> omega

theorem char_eq_slash_of_toNat (c : Char) (h : c.toNat = 47) : c = '/' := by
  apply Char.ext
  apply UInt32.ext
  simpa using h

theorem matchArm_ci_digit (t : Char) (rest2 : List CC) (c : Char) (cs : List Char)
    (hl : 97 ≤ lowerCode t.toNat) (h1 : 48 ≤ c.toNat) (h2 : c.toNat ≤ 57) :
    matchArm (CC.ci t :: rest2) (c :: cs) = none := by
  have hlc : lowerCode c.toNat = c.toNat := by
    unfold lowerCode; rw [if_neg]; omega
  have htest : CC.test (CC.ci t) c = false := by
    simp only [CC.test, decide_eq_false_iff_not]
    omega
  simp [matchArm, htest]

/-- Every alternative starts with a case-insensitive letter (true of `%B`,
`%b`, `%p`). -/
def armFirstCi (a : Arm) : Bool :=
  match a.pats with
  | CC.ci t :: _ => decide (97 ≤ lowerCode t.toNat)
  | _ => false

theorem matchToks_dir_letter_digit (D : Dir) (ts : List Tok) (c : Char)
    (cs : List Char) (hD : (armsOf D).all armFirstCi = true)
    (h1 : 48 ≤ c.toNat) (h2 : c.toNat ≤ 57) :
    matchToks (Tok.dir D :: ts) (c :: cs) = none := by
  apply matchToks_dir_none
  intro a ha
  have hfc := List.all_eq_true.mp hD a ha
  unfold armFirstCi at hfc
  split at hfc
  · next t tail hpats =>
    rw [hpats]
    exact matchArm_ci_digit t tail c cs (of_decide_eq_true hfc) h1 h2
  · simp at hfc

theorem matchToks_dirY_slash1 (ts : List Tok) (a : Char) (rest : List Char) :
    matchToks (Tok.dir Dir.Y :: ts) (a :: '/' :: rest) = none := by
  apply matchToks_dir_none
  intro arm harm
  simp only [armsOf, List.mem_singleton] at harm
  subst harm
  have h47 : CC.test digitCC '/' = false := by decide
  cases ht : CC.test digitCC a <;> simp [matchArm, ht, h47]

theorem matchToks_dirY_slash2 (ts : List Tok) (a b : Char) (rest : List Char) :
    matchToks (Tok.dir Dir.Y :: ts) (a :: b :: '/' :: rest) = none := by
  apply matchToks_dir_none
  intro arm harm
  simp only [armsOf, List.mem_singleton] at harm
  subst harm
  have h47 : CC.test digitCC '/' = false := by decide
  cases ht : CC.test digitCC a <;> cases ht2 : CC.test digitCC b <;>
    simp [matchArm, ht, ht2, h47]

/-! ### Characterization of strings matched by `%m/%d/%Y` -/

/-- A character class that only accepts ASCII digits. -/
def ccDigit : CC → Bool
  | CC.range lo hi => decide (48 ≤ lo ∧ hi ≤ 57)
  | _ => false

theorem forall₂_digit : ∀ (pats : List CC) (pre : List Char),
    pats.all ccDigit = true →
    List.Forall₂ (fun cc c => CC.test cc c = true) pats pre →
    ∀ c ∈ pre, 48 ≤ c.toNat ∧ c.toNat ≤ 57 := by
  intro pats
  induction pats with
  | nil =>
    intro pre _ hf c hc
    cases hf
    simp at hc
  | cons cc pats2 ih =>
    intro pre hall hf c hc
    cases hf with
    | cons h1 h2 =>
      rename_i ch pre2
      rw [List.all_cons, Bool.and_eq_true] at hall
      rcases List.mem_cons.mp hc with rfl | hmem
      · cases cc with
        | ci t => simp [ccDigit] at hall
        | range lo hi =>
          have hb : 48 ≤ lo ∧ hi ≤ 57 :=
            of_decide_eq_true (by simpa [ccDigit] using hall.1)
          have ht : lo ≤ c.toNat ∧ c.toNat ≤ hi :=
            of_decide_eq_true (by simpa [CC.test] using h1)
          omega
      · exact ih pre2 hall.2 h2 c hmem

/-- Decomposition of a successful `%m/%d/%Y` match: the input is
`month / day / year` where the month part is one or two digits and all
three parts are digit strings. -/
theorem mdY_shape (s : List Char) (env : List (Dir × Nat))
    (h : matchToks [Tok.dir Dir.m, Tok.lit '/', Tok.dir Dir.d, Tok.lit '/',
      Tok.dir Dir.Y] s = some env) :
    ∃ pm pd py : List Char,
      s = pm ++ '/' :: (pd ++ '/' :: py) ∧
      1 ≤ pm.length ∧ pm.length ≤ 2 ∧
      (∀ c ∈ pm, 48 ≤ c.toNat ∧ c.toNat ≤ 57) ∧
      (∀ c ∈ s, (48 ≤ c.toNat ∧ c.toNat ≤ 57) ∨ c = '/') := by
  obtain ⟨a1, ha1, pre1, suf1, env1, hm1, hrest1⟩ := matchToks_dir_eq_some _ _ _ _ h
  obtain ⟨hs1, hf1⟩ := matchArm_eq_some _ _ _ _ hm1
  obtain ⟨x1, xs1, hsuf1, hx1, hrest2⟩ := matchToks_lit_eq_some _ _ _ _ hrest1
  have hx1' : x1 = '/' := by
    apply char_eq_slash_of_toNat
    apply lowerCode_eq_47
    simpa using hx1
  obtain ⟨a2, ha2, pre2, suf2, env2, hm2, hrest3⟩ := matchToks_dir_eq_some _ _ _ _ hrest2
  obtain ⟨hs2, hf2⟩ := matchArm_eq_some _ _ _ _ hm2
  obtain ⟨x2, xs2, hsuf2, hx2, hrest4⟩ := matchToks_lit_eq_some _ _ _ _ hrest3
  have hx2' : x2 = '/' := by
    apply char_eq_slash_of_toNat
    apply lowerCode_eq_47
    simpa using hx2
  obtain ⟨a3, ha3, pre3, suf3, env3, hm3, hrest5⟩ := matchToks_dir_eq_some _ _ _ _ hrest4
  obtain ⟨hs3, hf3⟩ := matchArm_eq_some _ _ _ _ hm3
  obtain ⟨hnil, -⟩ := matchToks_nil_eq_some _ _ hrest5
  have hallm : (armsOf Dir.m).all
      (fun a => a.pats.all ccDigit &&
        (decide (1 ≤ a.pats.length) && decide (a.pats.length ≤ 2))) = true := by
    decide
  have halld : (armsOf Dir.d).all (fun a => a.pats.all ccDigit) = true := by decide
  have hallY : (armsOf Dir.Y).all (fun a => a.pats.all ccDigit) = true := by decide
  have ham := List.all_eq_true.mp hallm a1 ha1
  rw [Bool.and_eq_true, Bool.and_eq_true] at ham
  have hpmdig : ∀ c ∈ pre1, 48 ≤ c.toNat ∧ c.toNat ≤ 57 :=
    forall₂_digit a1.pats pre1 ham.1 hf1
  have hpddig : ∀ c ∈ pre2, 48 ≤ c.toNat ∧ c.toNat ≤ 57 :=
    forall₂_digit a2.pats pre2 (List.all_eq_true.mp halld a2 ha2) hf2
  have hpydig : ∀ c ∈ pre3, 48 ≤ c.toNat ∧ c.toNat ≤ 57 :=
    forall₂_digit a3.pats pre3 (List.all_eq_true.mp hallY a3 ha3) hf3
  have hlen : pre1.length = a1.pats.length := (List.Forall₂.length_eq hf1).symm
  have hlen1 : 1 ≤ pre1.length := by
    have := of_decide_eq_true ham.2.1
    omega
  have hlen2 : pre1.length ≤ 2 := by
    have := of_decide_eq_true ham.2.2
    omega
  subst hnil
  subst hx1'
  subst hx2'
  subst hs3
  subst hsuf2
  subst hs2
  subst hsuf1
  subst hs1
  refine ⟨pre1, pre2, pre3, by simp, hlen1, hlen2, hpmdig, ?_⟩
  intro c hc
  simp only [List.append_nil, List.mem_append, List.mem_cons] at hc
  rcases hc with hc | hc | hc | hc | hc
  · exact Or.inl (hpmdig c hc)
  · exact Or.inr hc
  · exact Or.inl (hpddig c hc)
  · exact Or.inr hc
  · exact Or.inl (hpydig c hc)

/-! ### Normalization is the identity on digit-and-slash strings -/

theorem dropWhile_eq_self_of (p : Char → Bool) (s : List Char)
    (h : ∀ c ∈ s, p c = false) : s.dropWhile p = s := by
  cases s with
  | nil => rfl
  | cons c cs => simp [List.dropWhile, h c (by simp)]

theorem pyStrip_eq_self (s : List Char) (h : ∀ c ∈ s, isSpaceB c = false) :
    pyStrip s = s := by
  unfold pyStrip
  rw [dropWhile_eq_self_of isSpaceB s h]
  rw [dropWhile_eq_self_of isSpaceB s.reverse (fun c hc => h c (List.mem_reverse.mp hc))]
  exact List.reverse_reverse s

theorem containsSub_gmt_false (s : List Char) (h : ∀ c ∈ s, c ≠ ' ') :
    containsSub gmtPat s = false := by
  induction s with
  | nil => rfl
  | cons c cs ih =>
    have hpre : gmtPat.isPrefixOf (c :: cs) = false := by
      have hc := h c (by simp)
      simp only [gmtPat, List.isPrefixOf, Bool.and_eq_false_iff]
      left
      simpa using fun heq => hc heq.symm
    simp only [containsSub, hpre, Bool.false_or]
    exact ih (fun x hx => h x (by simp [hx]))

theorem stripOrdAux_eq_self : ∀ (s : List Char), ∀ (b : Bool),
    (∀ c ∈ s, (48 ≤ c.toNat ∧ c.toNat ≤ 57) ∨ c = '/') →
    stripOrdAux b s = s
  | [], _, _ => rfl
  | [c], _, _ => rfl
  | c :: c2 :: rest, b, h => by
    have hc := h c (by simp)
    by_cases hd : isDigitB c = true
    · simp only [stripOrdAux, if_pos hd]
      rw [stripOrdAux_eq_self (c2 :: rest) true (fun x hx => h x (by simp at hx ⊢; tauto))]
    · have hnd : isDigitB c = false := by simpa using hd
      have hslash : c = '/' := by
        rcases hc with hdig | hs2
        · exfalso
          have : isDigitB c = true := by simp [isDigitB]; omega
          rw [this] at hnd
          cases hnd
        · exact hs2
      have hop : isOrdPair c c2 = false := by
        subst hslash
        simp [isOrdPair]
      have hcond : (b && isOrdPair c c2) = false := by rw [hop]; simp
      simp only [stripOrdAux, hnd, hcond, Bool.false_eq_true, if_false]
      rw [stripOrdAux_eq_self (c2 :: rest) false (fun x hx => h x (by simp at hx ⊢; tauto))]

theorem normalize_digit_slash_id (s : List Char)
    (h : ∀ c ∈ s, (48 ≤ c.toNat ∧ c.toNat ≤ 57) ∨ c = '/') :
    normalize_sheet_date s = s := by
  have hnospace : ∀ c ∈ s, isSpaceB c = false := by
    intro c hc
    rcases h c hc with hdig | hsl
    · simp [isSpaceB]
      omega
    · subst hsl
      decide
  have hnosp : ∀ c ∈ s, c ≠ ' ' := by
    intro c hc heq
    have := hnospace c hc
    rw [heq] at this
    cases this
  unfold normalize_sheet_date
  simp only [pyStrip_eq_self s hnospace, containsSub_gmt_false s hnosp,
    Bool.false_eq_true, if_false, stripOrdinals]
  exact stripOrdAux_eq_self s false h

theorem strptime_elim (f : String) (s : List Char) (dt : DateTime)
    (h : strptime f s = some dt) :
    ∃ env, matchToks (compileFormat f.data) s = some env ∧
      buildDateTime env = some dt := by
  unfold strptime at h
  cases hmt : matchToks (compileFormat f.data) s with
  | none => rw [hmt] at h; cases h
  | some env => rw [hmt] at h; exact ⟨env, rfl, h⟩

/-- Claim C6: `parse_sheet_date "11/15/2025"` returns November 15, 2025, and
for every input string accepted by both the `%m/%d/%Y` and the `%d/%m/%Y`
pattern, the month-first reading wins, because `%m/%d/%Y` is attempted
earlier in the cascade (and no earlier candidate can accept such a
string). -/
theorem slash_date_precedence :
    parse_sheet_date "11/15/2025" = some ⟨2025, 11, 15, 0, 0, 0, 0⟩ ∧
    ∀ (s : String) (dt dt' : DateTime),
      strptime "%m/%d/%Y" s.data = some dt →
      strptime "%d/%m/%Y" s.data = some dt' →
      parse_sheet_date s = some dt := by
  constructor
  · decide
  · intro s dt dt' hmdy hdmy
    obtain ⟨env, hmt, hbuild⟩ := strptime_elim _ _ _ hmdy
    have hmt' : matchToks [Tok.dir Dir.m, Tok.lit '/', Tok.dir Dir.d,
        Tok.lit '/', Tok.dir Dir.Y] s.data = some env := hmt
    obtain ⟨pm, pd, py, hsplit, hl1, hl2, hpmdig, hchars⟩ := mdY_shape _ _ hmt'
    have hnorm : normalize_sheet_date s.data = s.data :=
      normalize_digit_slash_id _ hchars
    have hallB : (armsOf Dir.B).all armFirstCi = true := by decide
    have hallb : (armsOf Dir.b).all armFirstCi = true := by decide
    -- the first character of the input is a digit
    obtain ⟨c1, pmrest, hpm1⟩ : ∃ c1 pmrest, pm = c1 :: pmrest := by
      cases pm with
      | nil => simp at hl1
      | cons c1 r => exact ⟨c1, r, rfl⟩
    have hc1 : 48 ≤ c1.toNat ∧ c1.toNat ≤ 57 := hpmdig c1 (by simp [hpm1])
    have hs1 : ∃ tail, s.data = c1 :: tail := by
      rw [hsplit, hpm1]
      exact ⟨pmrest ++ '/' :: (pd ++ '/' :: py), rfl⟩
    obtain ⟨tail, hstail⟩ := hs1
    -- failures of the four month-name candidates
    have hf1 : strptime "%B %d, %Y at %I:%M %p" s.data = none := by
      unfold strptime
      have hcomp : compileFormat "%B %d, %Y at %I:%M %p".data =
          Tok.dir Dir.B :: compileFormat " %d, %Y at %I:%M %p".data := rfl
      rw [hcomp, hstail,
        matchToks_dir_letter_digit Dir.B _ c1 tail hallB hc1.1 hc1.2]
    have hf2 : strptime "%b %d, %Y at %I:%M %p" s.data = none := by
      unfold strptime
      have hcomp : compileFormat "%b %d, %Y at %I:%M %p".data =
          Tok.dir Dir.b :: compileFormat " %d, %Y at %I:%M %p".data := rfl
      rw [hcomp, hstail,
        matchToks_dir_letter_digit Dir.b _ c1 tail hallb hc1.1 hc1.2]
    have hf3 : strptime "%b %d, %Y, %I:%M:%S %p" s.data = none := by
      unfold strptime
      have hcomp : compileFormat "%b %d, %Y, %I:%M:%S %p".data =
          Tok.dir Dir.b :: compileFormat " %d, %Y, %I:%M:%S %p".data := rfl
      rw [hcomp, hstail,
        matchToks_dir_letter_digit Dir.b _ c1 tail hallb hc1.1 hc1.2]
    have hf4 : strptime "%B %d, %Y, %I:%M:%S %p" s.data = none := by
      unfold strptime
      have hcomp : compileFormat "%B %d, %Y, %I:%M:%S %p".data =
          Tok.dir Dir.B :: compileFormat " %d, %Y, %I:%M:%S %p".data := rfl
      rw [hcomp, hstail,
        matchToks_dir_letter_digit Dir.B _ c1 tail hallB hc1.1 hc1.2]
    -- failures of the two year-first candidates: the slash arrives within
    -- the first three characters, where `%Y` demands four digits
    have hYfail : ∀ ts : List Tok,
        matchToks (Tok.dir Dir.Y :: ts) s.data = none := by
      intro ts
      cases hpmr : pmrest with
      | nil =>
        have heq : s.data = c1 :: '/' :: (pd ++ '/' :: py) := by
          rw [hsplit, hpm1, hpmr]
          rfl
        rw [heq]
        exact matchToks_dirY_slash1 ts c1 _
      | cons c2 r2 =>
        have hlen0 : (c1 :: c2 :: r2).length ≤ 2 := by
          rw [← hpmr, ← hpm1]
          exact hl2
        have hr2 : r2 = [] := by
          simp only [List.length_cons] at hlen0
          exact List.eq_nil_of_length_eq_zero (by omega)
        have heq : s.data = c1 :: c2 :: '/' :: (pd ++ '/' :: py) := by
          rw [hsplit, hpm1, hpmr, hr2]
          rfl
        rw [heq]
        exact matchToks_dirY_slash2 ts c1 c2 _
    have hf5 : strptime "%Y-%m-%d" s.data = none := by
      unfold strptime
      have hcomp : compileFormat "%Y-%m-%d".data =
          Tok.dir Dir.Y :: compileFormat "-%m-%d".data := rfl
      rw [hcomp, hYfail]
    have hf6 : strptime "%Y/%m/%d" s.data = none := by
      unfold strptime
      have hcomp : compileFormat "%Y/%m/%d".data =
          Tok.dir Dir.Y :: compileFormat "/%m/%d".data := rfl
      rw [hcomp, hYfail]
    -- walk the cascade
    unfold parse_sheet_date parseSheetDateChars
    rw [hnorm]
    simp only [candidate_formats, tryCandidates, hf1, hf2, hf3, hf4, hf5, hf6,
      hmdy]

/-- Witness for C6: `"1/2/2025"` is valid under both slash patterns
(January 2 month-first, February 1 day-first) and parses month-first. -/
theorem slash_date_precedence_witness :
    parse_sheet_date "1/2/2025" = some ⟨2025, 1, 2, 0, 0, 0, 0⟩ :=
  slash_date_precedence.2 "1/2/2025" ⟨2025, 1, 2, 0, 0, 0, 0⟩
    ⟨2025, 2, 1, 0, 0, 0, 0⟩ (by decide) (by decide)

/-! ## Aggregation engine (`fetch_sales_from_sheets`, main.py lines 196-345) -/

/-- Python `str.strip()` on a `String`. -/
def pyStripS (s : String) : String := ⟨pyStrip s.data⟩

/-- Case-insensitive name comparison, `name.lower() == user_name.lower()`
(ASCII model of `str.lower`). -/
def nameEq (a b : String) : Bool :=
  decide (a.data.map (fun c => lowerCode c.toNat) =
          b.data.map (fun c => lowerCode c.toNat))

/-- `sale_str.replace('$', '').replace(',', '').strip()` (main.py line 313). -/
def clean_sale (s : String) : List Char :=
  pyStrip ((s.data.filter (fun c => c != '$')).filter (fun c => c != ','))

/-- Exponent part of a Python float literal: optional sign then digits. -/
def parseExp : List Char → Option Int
  | [] => none
  | '+' :: r =>
    if r.isEmpty = false ∧ r.all isDigitB then some (digitsVal r) else none
  | '-' :: r =>
    if r.isEmpty = false ∧ r.all isDigitB then some (-(digitsVal r : Int)) else none
  | r =>
    if r.isEmpty = false ∧ r.all isDigitB then some (digitsVal r) else none

/-- The unsigned part of Python `float()` on a decimal literal:
`digits [. digits] [e|E exponent]`, with at least one digit around the
point.  (`inf`, `nan` and digit-group underscores are outside the inputs
this program meets and are not modelled.) -/
def parseUnsigned (cs : List Char) : Option ℚ :=
  let ip := cs.takeWhile isDigitB
  let rest := cs.dropWhile isDigitB
  match rest with
  | [] => if ip.isEmpty then none else some (digitsVal ip : ℚ)
  | '.' :: rest2 =>
    let fp := rest2.takeWhile isDigitB
    let rest3 := rest2.dropWhile isDigitB
    if ip.isEmpty ∧ fp.isEmpty then none
    else
      let mant : ℚ := (digitsVal ip : ℚ) + (digitsVal fp : ℚ) / (10 : ℚ) ^ fp.length
      match rest3 with
      | [] => some mant
      | e :: rest4 =>
        if e = 'e' ∨ e = 'E' then
          match parseExp rest4 with
          | some ex => some (mant * (10 : ℚ) ^ ex)
          | none => none
        else none
  | e :: rest4 =>
    if (e = 'e' ∨ e = 'E') ∧ ip.isEmpty = false then
      match parseExp rest4 with
      | some ex => some ((digitsVal ip : ℚ) * (10 : ℚ) ^ ex)
      | none => none
    else none

/-- Python `float(s)` on the cleaned amount string; `none` is `ValueError`. -/
def parseFloat (cs : List Char) : Option ℚ :=
  match cs with
  | '+' :: r => parseUnsigned r
  | '-' :: r => (parseUnsigned r).map (fun q => -q)
  | other => parseUnsigned other

/-- `float(clean_sale) if clean_sale else 0.0` (main.py line 314), with the
cleaning of line 313 applied first; `none` is the per-row `ValueError`. -/
def amountOfSale (sale_str : String) : Option ℚ :=
  let clean := clean_sale sale_str
  if clean.isEmpty then some 0 else parseFloat clean

def pad2 (n : Nat) : String := if n < 10 then "0" ++ toString n else toString n

def pad4 (n : Nat) : String :=
  if n < 10 then "000" ++ toString n
  else if n < 100 then "00" ++ toString n
  else if n < 1000 then "0" ++ toString n
  else toString n

/-- `dt.strftime('%Y-%m-%d')`. -/
def fmtYmd (d : DateTime) : String :=
  pad4 d.year ++ "-" ++ pad2 d.month ++ "-" ++ pad2 d.day

/-- One sheet's column layout and format hints (main.py lines 41-61). -/
structure SheetConfig where
  name_idx : Nat
  date_idx : Nat
  sale_idx : Nat
  formats : List String
deriving DecidableEq

/-- `SHEET_CONFIGS` (main.py lines 41-60), verbatim. -/
def SHEET_CONFIGS : List (String × SheetConfig) :=
  [("1MlIztcbS1hR-gMnT9aOtH5LMALcIOLCUL08o1SMsePg",
    ⟨0, 3, 5, ["%b %d, %Y, %I:%M:%S %p", "%B %d, %Y, %I:%M:%S %p", "%Y-%m-%d"]⟩),
   ("1Q0VkLwxwKTc_-t17Ij-t_rI-wtwdLE37FyUjkznCYrI",
    ⟨0, 2, 4, ["%B %dth, %Y at %I:%M %p", "%B %dst, %Y at %I:%M %p",
               "%B %dnd, %Y at %I:%M %p", "%B %drd, %Y at %I:%M %p"]⟩),
   ("1Eqtc8utEzUAdknJI_-u1AGg1SxBH3T78JpVwkpIQZ2Q",
    ⟨0, 3, 5, ["%Y-%m-%d", "%b %d, %Y", "%B %d, %Y"]⟩)]

/-- `DEFAULT_CONFIG` (main.py line 61), verbatim. -/
def DEFAULT_CONFIG : SheetConfig :=
  ⟨0, 3, 5, ["%b %d, %Y, %I:%M:%S %p", "%B %d, %Y", "%Y-%m-%d"]⟩

/-- `SHEET_CONFIGS.get(sheet_id, DEFAULT_CONFIG)` (main.py line 244). -/
def sheetConfigFor (id : String) : SheetConfig :=
  (SHEET_CONFIGS.lookup id).getD DEFAULT_CONFIG

/-- Date parsing of one row (main.py lines 283-299): the layout's formats are
tried in order, then the generic `parse_sheet_date` cascade as fallback. -/
def row_sale_date (conf : SheetConfig) (date_str : String) : Option DateTime :=
  match tryCandidates conf.formats date_str.data with
  | some d => some d
  | none => parse_sheet_date date_str

/-- The mutable accumulators of the aggregation loop: `totals`, `breakdown`
and the four debug trackers (main.py lines 232-239). -/
structure AggState where
  totals : ℚ
  breakdown : List (String × ℚ)
  total_rows : Nat
  name_matches : Nat
  matching_sales : Nat
  sample_dates : List String
deriving DecidableEq

def initState : AggState := ⟨0, [], 0, 0, 0, []⟩

/-- Python dict assignment `d[k] = v`: overwrite in place, else append. -/
def dictSet (k : String) (v : ℚ) : List (String × ℚ) → List (String × ℚ)
  | [] => [(k, v)]
  | (k', v') :: rest => if k' = k then (k', v) :: rest else (k', v') :: dictSet k v rest

def breakdownSum (l : List (String × ℚ)) : ℚ := (l.map Prod.snd).sum

/-- One iteration of the row loop (main.py lines 262-323).  The pair carries
the global accumulators and the current sheet's `sheet_total`. -/
def processRow (conf : SheetConfig) (user_name : String) (since untl : DateTime)
    (acc : AggState × ℚ) (row : List String) : AggState × ℚ :=
  let sheet_total := acc.2
  let st := { acc.1 with total_rows := acc.1.total_rows + 1 }
  if row.length ≤ max (max conf.name_idx conf.date_idx) conf.sale_idx then
    (st, sheet_total)
  else
    let name := pyStripS (row.getD conf.name_idx "")
    let date_str := pyStripS (row.getD conf.date_idx "")
    let sale_str := pyStripS (row.getD conf.sale_idx "")
    if nameEq name user_name = false then (st, sheet_total)
    else
      let st := { st with name_matches := st.name_matches + 1 }
      match row_sale_date conf date_str with
      | none => (st, sheet_total)
      | some sale_date =>
        let st := { st with sample_dates :=
          if st.sample_dates.length < 5 then st.sample_dates ++ [fmtYmd sale_date]
          else st.sample_dates }
        if dtLe since sale_date && dtLe sale_date untl then
          match amountOfSale sale_str with
          | none => (st, sheet_total)
          | some amount =>
            ({ st with matching_sales := st.matching_sales + 1 },
             sheet_total + amount)
        else (st, sheet_total)

/-- One sheet's processing (main.py lines 251-330): skip when no rows; skip
the header row; fold the row loop; record the subtotal in the breakdown and
the grand total only when strictly positive. -/
def processSheet (conf : SheetConfig) (user_name : String)
    (since untl : DateTime) (sheet_id : String) (st : AggState)
    (rows : List (List String)) : AggState :=
  match rows with
  | [] => st
  | _ :: dataRows =>
    let res := dataRows.foldl (processRow conf user_name since untl) (st, 0)
    if 0 < res.2 then
      { res.1 with
        breakdown := dictSet sheet_id res.2 res.1.breakdown,
        totals := res.1.totals + res.2 }
    else res.1

/-- One iteration of the sheet loop (main.py lines 243-334): a failing fetch
(`except Exception`) leaves the accumulators untouched and continues. -/
def sheetStep (user_name : String) (since untl : DateTime) (st : AggState)
    (entry : String × Except String (List (List String))) : AggState :=
  match entry.2 with
  | Except.error _ => st
  | Except.ok rows =>
    processSheet (sheetConfigFor entry.1) user_name since untl entry.1 st rows

/-- The external world of `fetch_sales_from_sheets`: whether
`SERVICE_ACCOUNT_JSON` is set and the file exists, whether the Google client
library is importable, whether credential building succeeds, and the fetch
outcome for each configured sheet id (in `SHEETS_IDS` order). -/
structure SheetsEnv where
  service_account_configured : Bool
  client_installed : Bool
  auth_ok : Bool
  sheets : List (String × Except String (List (List String)))

/-- The `debug_info` dictionary (main.py lines 336-342). -/
structure DebugInfo where
  total_rows : Nat
  name_matches : Nat
  matching_sales : Nat
  date_range : String
  sample_dates : String
deriving DecidableEq

/-- The result dictionary of `fetch_sales_from_sheets`: the error results of
lines 205, 209 and 219 carry no `debug_info`, the success result of line 345
carries no `error`. -/
structure SalesResult where
  total : ℚ
  per_sheet : List (String × ℚ)
  error : Option String
  debug_info : Option DebugInfo
deriving DecidableEq

def SalesResult.debugD (r : SalesResult) : DebugInfo :=
  r.debug_info.getD ⟨0, 0, 0, "", ""⟩

/-- Translation of `fetch_sales_from_sheets` (main.py lines 196-345).  The
window bounds `since`/`untl` computed at lines 221-231 from
`days`/`start_date`/`end_date` and the clock are taken as parameters; the
authentication error message of line 219 embeds the exception text, which is
abstracted here. -/
def fetch_sales_from_sheets (env : SheetsEnv) (user_name : String)
    (since untl : DateTime) : SalesResult :=
  if env.service_account_configured = false then
    { total := 0, per_sheet := [],
      error := some "Service account not configured", debug_info := none }
  else if env.client_installed = false then
    { total := 0, per_sheet := [],
      error := some "Google API client not installed", debug_info := none }
  else if env.auth_ok = false then
    { total := 0, per_sheet := [],
      error := some "Authentication error", debug_info := none }
  else
    let st := env.sheets.foldl (sheetStep user_name since untl) initState
    { total := st.totals, per_sheet := st.breakdown, error := none,
      debug_info := some
        { total_rows := st.total_rows, name_matches := st.name_matches,
          matching_sales := st.matching_sales,
          date_range := fmtYmd since ++ " to " ++ fmtYmd untl,
          sample_dates :=
            if st.sample_dates.isEmpty then "None found"
            else String.intercalate ", " st.sample_dates } }

/-- Rows examined in one sheet: the fetched rows minus the header, zero for
a failed fetch or an empty sheet. -/
def sheetRowCount : Except String (List (List String)) → Nat
  | Except.error _ => 0
  | Except.ok [] => 0
  | Except.ok (_ :: dataRows) => dataRows.length

def rowsExamined (sheets : List (String × Except String (List (List String)))) : Nat :=
  (sheets.map (fun e => sheetRowCount e.2)).sum

/-! ### Row- and sheet-level accounting lemmas -/

theorem processRow_counters (conf : SheetConfig) (u : String)
    (since untl : DateTime) (acc : AggState × ℚ) (row : List String) :
    (processRow conf u since untl acc row).1.total_rows = acc.1.total_rows + 1 ∧
    acc.1.name_matches ≤ (processRow conf u since untl acc row).1.name_matches ∧
    (processRow conf u since untl acc row).1.name_matches ≤
      acc.1.name_matches + 1 ∧
    acc.1.matching_sales ≤ (processRow conf u since untl acc row).1.matching_sales ∧
    (processRow conf u since untl acc row).1.matching_sales +
        acc.1.name_matches ≤
      acc.1.matching_sales + (processRow conf u since untl acc row).1.name_matches ∧
    (processRow conf u since untl acc row).1.totals = acc.1.totals ∧
    (processRow conf u since untl acc row).1.breakdown = acc.1.breakdown := by
  simp only [processRow]
  split
  · simp
  · split
    · simp
    · split
      · simp
      · split
        · split
          · simp
          · simp
            omega
        · simp

theorem foldRows_counters (conf : SheetConfig) (u : String)
    (since untl : DateTime) :
    ∀ (rows : List (List String)) (acc : AggState × ℚ),
      (rows.foldl (processRow conf u since untl) acc).1.total_rows =
        acc.1.total_rows + rows.length ∧
      acc.1.name_matches ≤
        (rows.foldl (processRow conf u since untl) acc).1.name_matches ∧
      (rows.foldl (processRow conf u since untl) acc).1.name_matches +
          acc.1.total_rows ≤
        acc.1.name_matches +
          (rows.foldl (processRow conf u since untl) acc).1.total_rows ∧
      acc.1.matching_sales ≤
        (rows.foldl (processRow conf u since untl) acc).1.matching_sales ∧
      (rows.foldl (processRow conf u since untl) acc).1.matching_sales +
          acc.1.name_matches ≤
        acc.1.matching_sales +
          (rows.foldl (processRow conf u since untl) acc).1.name_matches ∧
      (rows.foldl (processRow conf u since untl) acc).1.totals = acc.1.totals ∧
      (rows.foldl (processRow conf u since untl) acc).1.breakdown =
        acc.1.breakdown := by
  intro rows
  induction rows with
  | nil => intro acc; simp
  | cons row rest ih =>
    intro acc
    simp only [List.foldl_cons, List.length_cons]
    obtain ⟨a1, a2, a3, a4, a5, a6, a7⟩ := processRow_counters conf u since untl acc row
    obtain ⟨b1, b2, b3, b4, b5, b6, b7⟩ := ih (processRow conf u since untl acc row)
    exact ⟨by omega, by omega, by omega, by omega, by omega,
      b6.trans a6, b7.trans a7⟩

theorem processSheet_counters (conf : SheetConfig) (u : String)
    (since untl : DateTime) (id : String) (st : AggState)
    (rows : List (List String)) :
    (processSheet conf u since untl id st rows).total_rows =
      st.total_rows + sheetRowCount (Except.ok rows) ∧
    st.name_matches ≤ (processSheet conf u since untl id st rows).name_matches ∧
    (processSheet conf u since untl id st rows).name_matches + st.total_rows ≤
      st.name_matches + (processSheet conf u since untl id st rows).total_rows ∧
    st.matching_sales ≤
      (processSheet conf u since untl id st rows).matching_sales ∧
    (processSheet conf u since untl id st rows).matching_sales +
        st.name_matches ≤
      st.matching_sales +
        (processSheet conf u since untl id st rows).name_matches := by
  cases rows with
  | nil => simp [processSheet, sheetRowCount]
  | cons hd dataRows =>
    have hb := foldRows_counters conf u since untl dataRows (st, 0)
    simp only at hb
    obtain ⟨b1, b2, b3, b4, b5, b6, b7⟩ := hb
    simp only [processSheet, sheetRowCount]
    split
    · exact ⟨by simp; omega, by simp; omega, by simp; omega, by simp; omega,
        by simp; omega⟩
    · exact ⟨b1, b2, b3, b4, b5⟩

theorem dictSet_fresh (k : String) (v : ℚ) :
    ∀ (l : List (String × ℚ)), k ∉ l.map Prod.fst →
      dictSet k v l = l ++ [(k, v)] := by
  intro l
  induction l with
  | nil => intro _; rfl
  | cons p rest ih =>
    intro h
    simp only [List.map_cons, List.mem_cons] at h
    have hne : p.1 ≠ k := fun heq => h (Or.inl heq.symm)
    obtain ⟨k', v'⟩ := p
    simp only [dictSet, if_neg hne]
    rw [ih (fun hx => h (Or.inr hx))]
    rfl

theorem processSheet_money (conf : SheetConfig) (u : String)
    (since untl : DateTime) (id : String) (st : AggState)
    (rows : List (List String))
    (hfresh : id ∉ st.breakdown.map Prod.fst)
    (h3 : st.totals = breakdownSum st.breakdown)
    (h4 : ∀ p ∈ st.breakdown, 0 < p.2) :
    (processSheet conf u since untl id st rows).totals =
      breakdownSum (processSheet conf u since untl id st rows).breakdown ∧
    (∀ p ∈ (processSheet conf u since untl id st rows).breakdown, 0 < p.2) ∧
    (∀ x ∈ (processSheet conf u since untl id st rows).breakdown.map Prod.fst,
      x ∈ st.breakdown.map Prod.fst ∨ x = id) := by
  cases rows with
  | nil =>
    simp only [processSheet]
    exact ⟨h3, h4, fun x hx => Or.inl hx⟩
  | cons hd dataRows =>
    have hb := foldRows_counters conf u since untl dataRows (st, 0)
    simp only at hb
    obtain ⟨b1, b2, b3, b4, b5, b6, b7⟩ := hb
    simp only [processSheet]
    split
    · next hpos =>
      dsimp only
      rw [b7, b6, dictSet_fresh _ _ _ hfresh]
      refine ⟨?_, ?_, ?_⟩
      · simp only [breakdownSum, List.map_append, List.sum_append,
          List.map_cons, List.map_nil, List.sum_cons, List.sum_nil]
        rw [h3]
        simp [breakdownSum]
      · intro p hp
        rcases List.mem_append.mp hp with hp | hp
        · exact h4 p hp
        · simp only [List.mem_singleton] at hp
          subst hp
          exact hpos
      · intro x hx
        simp only [List.map_append, List.map_cons, List.map_nil,
          List.mem_append, List.mem_singleton] at hx
        rcases hx with hx | hx
        · exact Or.inl hx
        · exact Or.inr (by simpa using hx)
    · rw [b7, b6]
      exact ⟨h3, h4, fun x hx => Or.inl hx⟩

theorem foldSheets_spec (u : String) (since untl : DateTime) :
    ∀ (sheets : List (String × Except String (List (List String))))
      (st : AggState),
      (sheets.map Prod.fst).Nodup →
      (∀ x ∈ sheets.map Prod.fst, x ∉ st.breakdown.map Prod.fst) →
      st.matching_sales ≤ st.name_matches →
      st.name_matches ≤ st.total_rows →
      st.totals = breakdownSum st.breakdown →
      (∀ p ∈ st.breakdown, 0 < p.2) →
      (sheets.foldl (sheetStep u since untl) st).matching_sales ≤
        (sheets.foldl (sheetStep u since untl) st).name_matches ∧
      (sheets.foldl (sheetStep u since untl) st).name_matches ≤
        (sheets.foldl (sheetStep u since untl) st).total_rows ∧
      (sheets.foldl (sheetStep u since untl) st).totals =
        breakdownSum (sheets.foldl (sheetStep u since untl) st).breakdown ∧
      (∀ p ∈ (sheets.foldl (sheetStep u since untl) st).breakdown, 0 < p.2) ∧
      (sheets.foldl (sheetStep u since untl) st).total_rows =
        st.total_rows + rowsExamined sheets := by
  intro sheets
  induction sheets with
  | nil =>
    intro st _ _ h1 h2 h3 h4
    exact ⟨h1, h2, h3, h4, by simp [rowsExamined]⟩
  | cons entry rest ih =>
    intro st hnd hdis h1 h2 h3 h4
    obtain ⟨id, fetchRes⟩ := entry
    simp only [List.map_cons, List.nodup_cons] at hnd
    have hdis_head : id ∉ st.breakdown.map Prod.fst :=
      hdis id (by simp)
    cases fetchRes with
    | error e =>
      have hstep : sheetStep u since untl st (id, Except.error e) = st := rfl
      simp only [List.foldl_cons, hstep]
      have := ih st hnd.2 (fun x hx => hdis x (by simp [hx])) h1 h2 h3 h4
      refine ⟨this.1, this.2.1, this.2.2.1, this.2.2.2.1, ?_⟩
      rw [this.2.2.2.2]
      simp [rowsExamined, sheetRowCount]
    | ok rows =>
      have hstep : sheetStep u since untl st (id, Except.ok rows) =
          processSheet (sheetConfigFor id) u since untl id st rows := rfl
      simp only [List.foldl_cons, hstep]
      obtain ⟨c1, c2, c3, c4, c5⟩ :=
        processSheet_counters (sheetConfigFor id) u since untl id st rows
      obtain ⟨m1, m2, m3⟩ :=
        processSheet_money (sheetConfigFor id) u since untl id st rows
          hdis_head h3 h4
      have hdis' : ∀ x ∈ rest.map Prod.fst,
          x ∉ (processSheet (sheetConfigFor id) u since untl id st
            rows).breakdown.map Prod.fst := by
        intro x hx hmem
        rcases m3 x hmem with hold | hid
        · exact hdis x (by simp [hx]) hold
        · subst hid
          exact hnd.1 hx
      have := ih (processSheet (sheetConfigFor id) u since untl id st rows)
        hnd.2 hdis' (by omega) (by omega) m1 m2
      refine ⟨this.1, this.2.1, this.2.2.1, this.2.2.2.1, ?_⟩
      rw [this.2.2.2.2, c1]
      simp [rowsExamined]
      omega

/-- Claim C8: when the service-account configuration is absent (environment
variable unset or credentials file missing), `fetch_sales_from_sheets`
returns total 0, an empty breakdown and an explanatory error field instead
of raising. -/
theorem fetch_sales_not_configured (env : SheetsEnv) (user_name : String)
    (since untl : DateTime) (h : env.service_account_configured = false) :
    fetch_sales_from_sheets env user_name since untl =
      { total := 0, per_sheet := [],
        error := some "Service account not configured", debug_info := none } := by
  simp [fetch_sales_from_sheets, h]

/-- Witness for C8 at a concrete unconfigured environment. -/
theorem fetch_sales_not_configured_witness :
    fetch_sales_from_sheets ⟨false, true, true, [("sheet1", Except.ok [])]⟩
        "Alice" ⟨2025, 6, 1, 0, 0, 0, 0⟩ ⟨2025, 6, 30, 23, 59, 59, 999999⟩ =
      { total := 0, per_sheet := [],
        error := some "Service account not configured", debug_info := none } :=
  fetch_sales_not_configured ⟨false, true, true, [("sheet1", Except.ok [])]⟩
    "Alice" ⟨2025, 6, 1, 0, 0, 0, 0⟩ ⟨2025, 6, 30, 23, 59, 59, 999999⟩ rfl

/-- Claim C4: a sheet whose fetch fails is skipped: the aggregation result
is the same as if that sheet were not configured at all, so the total comes
from the succeeding sheets only, nothing is raised, and the failed sheet
contributes zero rows to the `total_rows` diagnostic. -/
theorem fetch_sales_failed_sheet_skipped (sac ci ao : Bool)
    (pre post : List (String × Except String (List (List String))))
    (id err user_name : String) (since untl : DateTime) :
    fetch_sales_from_sheets ⟨sac, ci, ao, pre ++ (id, Except.error err) :: post⟩
        user_name since untl =
      fetch_sales_from_sheets ⟨sac, ci, ao, pre ++ post⟩ user_name since untl ∧
    rowsExamined (pre ++ (id, Except.error err) :: post) =
      rowsExamined (pre ++ post) := by
  constructor
  · have hfold :
        (pre ++ (id, Except.error err) :: post).foldl
          (sheetStep user_name since untl) initState =
        (pre ++ post).foldl (sheetStep user_name since untl) initState := by
      rw [List.foldl_append, List.foldl_append, List.foldl_cons]
      rfl
    simp only [fetch_sales_from_sheets, hfold]
  · simp [rowsExamined, sheetRowCount]

/-- Claim C1: for every aggregation run over any sheet contents (with the
configured sheet ids distinct, as the id list is configuration), the
diagnostics satisfy `matching_sales <= name_matches <= total_rows`, the
returned total equals the sum of the values of `per_sheet`, a sheet appears
in `per_sheet` only with a strictly positive subtotal, and `total_rows`
counts the examined rows of every successfully fetched sheet, including the
zero-subtotal ones omitted from the breakdown. -/
theorem fetch_sales_invariants (env : SheetsEnv) (u : String)
    (since untl : DateTime)
    (hconf : env.service_account_configured = true)
    (hcli : env.client_installed = true)
    (hauth : env.auth_ok = true)
    (hnd : (env.sheets.map Prod.fst).Nodup) :
    (fetch_sales_from_sheets env u since untl).debug_info.isSome = true ∧
    (fetch_sales_from_sheets env u since untl).debugD.matching_sales ≤
      (fetch_sales_from_sheets env u since untl).debugD.name_matches ∧
    (fetch_sales_from_sheets env u since untl).debugD.name_matches ≤
      (fetch_sales_from_sheets env u since untl).debugD.total_rows ∧
    (fetch_sales_from_sheets env u since untl).total =
      breakdownSum (fetch_sales_from_sheets env u since untl).per_sheet ∧
    (∀ p ∈ (fetch_sales_from_sheets env u since untl).per_sheet, 0 < p.2) ∧
    (fetch_sales_from_sheets env u since untl).debugD.total_rows =
      rowsExamined env.sheets := by
  obtain ⟨s1, s2, s3, s4, s5⟩ := foldSheets_spec u since untl env.sheets
    initState hnd (by simp [initState]) (by simp [initState])
    (by simp [initState]) (by simp [initState, breakdownSum])
    (by simp [initState])
  simp only [fetch_sales_from_sheets, hconf, hcli, hauth, Bool.true_eq_false,
    if_false, SalesResult.debugD, Option.getD_some, Option.isSome_some]
  refine ⟨trivial, s1, s2, s3, s4, ?_⟩
  rw [s5]
  simp [initState]

def envExample : SheetsEnv :=
  ⟨true, true, true,
   [("sheetA", Except.ok [["header"],
      ["Alice", "", "", "2025-06-10", "", "$5.00"]]),
    ("sheetB", Except.error "network unreachable"),
    ("sheetC", Except.ok [["header"],
      ["Bob", "", "", "2025-06-11", "", "$7.00"]])]⟩

def sinceExample : DateTime := ⟨2025, 6, 1, 0, 0, 0, 0⟩

def untlExample : DateTime := ⟨2025, 6, 30, 23, 59, 59, 999999⟩

/-- Witness for C1 at a concrete environment with a matching sheet, a
failing sheet and a zero-result sheet. -/
theorem fetch_sales_invariants_witness :
    (fetch_sales_from_sheets envExample "alice" sinceExample
      untlExample).debug_info.isSome = true ∧
    (fetch_sales_from_sheets envExample "alice" sinceExample
      untlExample).debugD.matching_sales ≤
      (fetch_sales_from_sheets envExample "alice" sinceExample
        untlExample).debugD.name_matches ∧
    (fetch_sales_from_sheets envExample "alice" sinceExample
      untlExample).debugD.name_matches ≤
      (fetch_sales_from_sheets envExample "alice" sinceExample
        untlExample).debugD.total_rows ∧
    (fetch_sales_from_sheets envExample "alice" sinceExample untlExample).total =
      breakdownSum (fetch_sales_from_sheets envExample "alice" sinceExample
        untlExample).per_sheet ∧
    (∀ p ∈ (fetch_sales_from_sheets envExample "alice" sinceExample
      untlExample).per_sheet, 0 < p.2) ∧
    (fetch_sales_from_sheets envExample "alice" sinceExample
      untlExample).debugD.total_rows = rowsExamined envExample.sheets :=
  fetch_sales_invariants envExample "alice" sinceExample untlExample
    rfl rfl rfl (by decide)

/-- Claim C7: for a name-matched, in-window row the amount cell is cleaned
by removing `$` and `,` and trimming whitespace: `"$1,234.50"` yields
1234.50, the empty string yields 0.0, and a non-numeric remainder such as
`"abc"` excludes only that row — the subtotal and `matching_sales` are
unchanged while the row is still counted — without aborting the sheet or
the aggregation. -/
theorem amount_cleaning_spec :
    clean_sale "$1,234.50" = "1234.50".data ∧
    amountOfSale "$1,234.50" = some (1234.5 : ℚ) ∧
    amountOfSale "" = some 0 ∧
    amountOfSale "abc" = none ∧
    (∀ (conf : SheetConfig) (u : String) (since untl : DateTime)
      (acc : AggState × ℚ) (row : List String) (d : DateTime),
      ¬ row.length ≤ max (max conf.name_idx conf.date_idx) conf.sale_idx →
      nameEq (pyStripS (row.getD conf.name_idx "")) u = true →
      row_sale_date conf (pyStripS (row.getD conf.date_idx "")) = some d →
      (dtLe since d && dtLe d untl) = true →
      (amountOfSale (pyStripS (row.getD conf.sale_idx "")) = none →
        processRow conf u since untl acc row =
          ({ acc.1 with
              total_rows := acc.1.total_rows + 1,
              name_matches := acc.1.name_matches + 1,
              sample_dates :=
                if acc.1.sample_dates.length < 5
                then acc.1.sample_dates ++ [fmtYmd d]
                else acc.1.sample_dates }, acc.2)) ∧
      (∀ q : ℚ, amountOfSale (pyStripS (row.getD conf.sale_idx "")) = some q →
        processRow conf u since untl acc row =
          ({ acc.1 with
              total_rows := acc.1.total_rows + 1,
              name_matches := acc.1.name_matches + 1,
              matching_sales := acc.1.matching_sales + 1,
              sample_dates :=
                if acc.1.sample_dates.length < 5
                then acc.1.sample_dates ++ [fmtYmd d]
                else acc.1.sample_dates }, acc.2 + q))) := by
  refine ⟨by decide, ?_, by decide, by decide, ?_⟩
  · have h0 : amountOfSale "$1,234.50" =
        some ((digitsVal ['1', '2', '3', '4'] : ℚ) +
          (digitsVal ['5', '0'] : ℚ) / (10 : ℚ) ^ (2 : ℕ)) := rfl
    have e1 : digitsVal ['1', '2', '3', '4'] = 1234 := by decide
    have e2 : digitsVal ['5', '0'] = 50 := by decide
    rw [h0, e1, e2]
    norm_num
  · intro conf u since untl acc row d hlen hname hdate hwin
    have hnn : ¬ (nameEq (pyStripS (row.getD conf.name_idx "")) u = false) := by
      rw [hname]
      simp
    constructor
    · intro hamt
      simp only [processRow, if_neg hlen, if_neg hnn, hdate, hwin, if_pos, hamt]
    · intro q hamt
      simp only [processRow, if_neg hlen, if_neg hnn, hdate, hwin, if_pos, hamt]

/-- Witness for C7: a name-matched in-window row with the non-numeric
amount `"abc"` is excluded without incrementing `matching_sales` or the
subtotal. -/
theorem amount_cleaning_spec_witness :
    processRow DEFAULT_CONFIG "Ann" sinceExample untlExample
        (initState, (0 : ℚ)) ["Ann", "", "", "2025-06-10", "", "abc"] =
      ({ initState with
          total_rows := initState.total_rows + 1,
          name_matches := initState.name_matches + 1,
          sample_dates :=
            if initState.sample_dates.length < 5
            then initState.sample_dates ++ [fmtYmd ⟨2025, 6, 10, 0, 0, 0, 0⟩]
            else initState.sample_dates }, (0 : ℚ)) :=
  (amount_cleaning_spec.2.2.2.2 DEFAULT_CONFIG "Ann" sinceExample untlExample
    (initState, (0 : ℚ)) ["Ann", "", "", "2025-06-10", "", "abc"]
    ⟨2025, 6, 10, 0, 0, 0, 0⟩ (by decide) (by decide) (by decide)
    (by decide)).1 (by decide)
